import Mathlib

/-!
Shallow embedding of `src/c1_state_machine/p5_digital_cash.rs` from
`tymat/blockchain-from-scratch`: a bill-based digital cash state machine.

Rust `u64` values are modelled as `Nat`; every arithmetic operation the code
performs on them is reduced modulo `2 ^ 64`, matching the wrapping semantics
of release-mode Rust (debug builds panic at the same inputs instead of
returning a value).  The Rust `HashSet<Bill>` is modelled as `Finset Bill`
(unordered, duplicate-free, extensional equality — the same observable
behaviour as `HashSet` equality); `Vec<Bill>` is `List Bill`.
-/

/-- Modulus of Rust `u64` arithmetic. -/
def U64_MOD : Nat := 2 ^ 64

/-- Modelled from the spec: the opaque user identity type `User` from the
`c1_state_machine` module (that module itself is not among the provided
sources; the spec calls ownership "an opaque identity tag" and the tests in
`p5_digital_cash.rs` use exactly the identities Alice, Bob and Charlie). -/
inductive User where
  | Alice
  | Bob
  | Charlie
deriving DecidableEq, Repr

/-- A single bill: owner, amount (u64) and serial number (u64).
Mirrors `struct Bill` (`derive(PartialEq, Eq, Hash)`: equality is on all
three fields). -/
structure Bill where
  owner : User
  amount : Nat
  serial : Nat
deriving DecidableEq, Repr

/-- The ledger state: the set of circulating bills plus the next serial
counter.  Mirrors `struct State`. -/
structure State where
  bills : Finset Bill
  next_serial : Nat
deriving DecidableEq

/-- Mirrors `State::new()`. -/
def State.new : State :=
  { bills := ∅, next_serial := 0 }

/-- Mirrors `State::set_serial`. -/
def State.set_serial (s : State) (serial : Nat) : State :=
  { s with next_serial := serial }

/-- Mirrors `State::increment_serial` (`self.next_serial += 1` on u64,
wrapping at `2 ^ 64`). -/
def State.increment_serial (s : State) : State :=
  { s with next_serial := (s.next_serial + 1) % U64_MOD }

/-- Mirrors `State::add_bill`: insert the bill into the set, then increment
the serial counter. -/
def State.add_bill (s : State) (elem : Bill) : State :=
  ({ s with bills := insert elem s.bills }).increment_serial

/-- Mirrors `impl FromIterator<Bill> for State`: start from `State::new()`
and `add_bill` each element in sequence. -/
def State.from_iter (l : List Bill) : State :=
  l.foldl State.add_bill State.new

/-- Mirrors `enum CashTransaction`. -/
inductive CashTransaction where
  | Mint (minter : User) (amount : Nat)
  | Transfer (spends : List Bill) (receives : List Bill)

namespace DigitalCashSystem

/-- Mirrors `DigitalCashSystem::is_empty_receive_fails`. -/
def is_empty_receive_fails (receives : List Bill) : Bool :=
  receives.isEmpty

/-- Mirrors `DigitalCashSystem::is_overflow_receives_fails`. -/
def is_overflow_receives_fails (total_spent total_received : Nat) : Bool :=
  total_received > total_spent

/-- Loop body of `DigitalCashSystem::has_incorrect_serial`, with the
`new_serials` accumulator made explicit. -/
def has_incorrect_serial_go (spends_serials existing_bills : Finset Nat) :
    List Bill → Finset Nat → Bool
  | [], _ => false
  | bill :: rest, new_serials =>
    if bill.amount = 0 then
      true
    else if bill.serial ∈ spends_serials ∨ bill.serial ∈ new_serials ∨
        bill.serial ∈ existing_bills then
      true
    else
      has_incorrect_serial_go spends_serials existing_bills rest
        (insert bill.serial new_serials)

/-- Mirrors `DigitalCashSystem::has_incorrect_serial`: scans the receives in
order, rejecting a zero amount or a serial already among the spends, the
receives seen so far, or the existing bills. -/
def has_incorrect_serial (receives : List Bill)
    (spends_serials existing_bills : Finset Nat) : Bool :=
  has_incorrect_serial_go spends_serials existing_bills receives ∅

/-- Mirrors `DigitalCashSystem::get_total_amount`
(`bills.iter().map(|bill| bill.amount).sum()` on u64: a left fold of
wrapping addition). -/
def get_total_amount (bills : List Bill) : Nat :=
  bills.foldl (fun acc bill => (acc + bill.amount) % U64_MOD) 0

/-- Mirrors `DigitalCashSystem::get_serials_set_from_vec`. -/
def get_serials_set_from_vec (bills : List Bill) : Finset Nat :=
  (bills.map Bill.serial).toFinset

/-- Mirrors `DigitalCashSystem::get_serials_set_from_hashset`. -/
def get_serials_set_from_hashset (bills : Finset Bill) : Finset Nat :=
  bills.image Bill.serial

/-- Mirrors `<DigitalCashSystem as StateMachine>::next_state`. -/
def next_state (starting_state : State) (t : CashTransaction) : State :=
  match t with
  | CashTransaction.Mint minter amount =>
    if amount = 0 then
      starting_state
    else
      starting_state.add_bill
        { owner := minter, amount := amount,
          serial := starting_state.next_serial }
  | CashTransaction.Transfer spends receives =>
    if is_empty_receive_fails receives then
      starting_state
    else
      let total_spent := get_total_amount spends
      let total_received := get_total_amount receives
      if is_overflow_receives_fails total_spent total_received then
        starting_state
      else if ¬ spends.all (fun bill => bill ∈ starting_state.bills) then
        starting_state
      else
        let spends_serials := get_serials_set_from_vec spends
        let existing_serials := get_serials_set_from_hashset starting_state.bills
        if has_incorrect_serial receives spends_serials existing_serials then
          starting_state
        else
          let after_removes : State :=
            { starting_state with
              bills := spends.foldl (fun bs bill => bs.erase bill)
                starting_state.bills }
          receives.foldl State.add_bill after_removes

/-- The success branch of a Transfer: erase every spent bill from the
working copy, then `add_bill` every receive in sequence. -/
def apply_transfer (s : State) (spends receives : List Bill) : State :=
  receives.foldl State.add_bill
    { s with bills := spends.foldl (fun bs bill => bs.erase bill) s.bills }

end DigitalCashSystem

/-- Total circulating value of a state: the (unbounded) sum of the amounts
of all bills in the store. -/
def State.total_value (s : State) : Nat :=
  s.bills.sum Bill.amount

/-- True (unbounded) total of the amounts of a list of bills, as opposed to
the wrapping u64 total computed by `get_total_amount`. -/
def true_total (bills : List Bill) : Nat :=
  (bills.map Bill.amount).sum

/-- Spec invariant 1 on a state: no two bills in the store share a serial. -/
def State.serials_unique (s : State) : Prop :=
  ∀ b1 ∈ s.bills, ∀ b2 ∈ s.bills, b1.serial = b2.serial → b1 = b2

/-- Spec invariant 2 on a state: every bill's serial is strictly less than
`next_serial`. -/
def State.serials_below_next (s : State) : Prop :=
  ∀ b ∈ s.bills, b.serial < s.next_serial

/-- A transaction fails the code's validation: for a Mint, a zero amount;
for a Transfer, empty receives, a wrapped-u64 receives total exceeding the
wrapped-u64 spends total, a spend that is not an exact member of the store,
a zero-amount receive, a receive serial among the spend serials, duplicated
receive serials, or a receive serial already circulating. -/
def fails_validation (s : State) (t : CashTransaction) : Prop :=
  match t with
  | CashTransaction.Mint _ amount => amount = 0
  | CashTransaction.Transfer spends receives =>
    receives = [] ∨
    DigitalCashSystem.get_total_amount receives >
      DigitalCashSystem.get_total_amount spends ∨
    (∃ b ∈ spends, b ∉ s.bills) ∨
    (∃ r ∈ receives, r.amount = 0) ∨
    (∃ r ∈ receives, r.serial ∈ DigitalCashSystem.get_serials_set_from_vec spends) ∨
    ¬ (receives.map Bill.serial).Nodup ∨
    (∃ r ∈ receives, r.serial ∈
      DigitalCashSystem.get_serials_set_from_hashset s.bills)

instance (s : State) : Decidable s.serials_unique := by
  unfold State.serials_unique; infer_instance

instance (s : State) : Decidable s.serials_below_next := by
  unfold State.serials_below_next; infer_instance

/- Sanity examples replaying the repository's own passing unit tests. -/

example :
    DigitalCashSystem.next_state State.new (.Mint .Alice 20) =
      State.from_iter [⟨.Alice, 20, 0⟩] := by decide

example :
    DigitalCashSystem.next_state (State.from_iter [⟨.Alice, 20, 0⟩])
        (.Transfer [] [⟨.Alice, 15, 1⟩]) =
      State.from_iter [⟨.Alice, 20, 0⟩] := by decide

example :
    DigitalCashSystem.next_state (State.from_iter [⟨.Alice, 20, 0⟩])
        (.Transfer [⟨.Alice, 20, 0⟩] []) =
      State.from_iter [⟨.Alice, 20, 0⟩] := by decide

example :
    DigitalCashSystem.next_state (State.from_iter [⟨.Alice, 20, 0⟩])
        (.Transfer [⟨.Alice, 20, 0⟩] [⟨.Bob, 0, 1⟩]) =
      State.from_iter [⟨.Alice, 20, 0⟩] := by decide

example :
    DigitalCashSystem.next_state (State.from_iter [⟨.Alice, 42, 0⟩])
        (.Transfer [⟨.Alice, 42, 0⟩]
          [⟨.Alice, 10, 1⟩, ⟨.Bob, 10, 2⟩, ⟨.Charlie, 10, 3⟩]) =
      (State.from_iter
        [⟨.Alice, 10, 1⟩, ⟨.Bob, 10, 2⟩, ⟨.Charlie, 10, 3⟩]).set_serial 4 := by
  decide

/- General lemmas about the embedded operations. -/

theorem U64_MOD_pos : 0 < U64_MOD := by
  norm_num [U64_MOD]

theorem add_bill_bills (s : State) (b : Bill) :
    (s.add_bill b).bills = insert b s.bills := rfl

theorem add_bill_next_serial (s : State) (b : Bill) :
    (s.add_bill b).next_serial = (s.next_serial + 1) % U64_MOD := rfl

/-- Membership in the bill set built by folding `add_bill` over a list. -/
theorem mem_bills_foldl_add_bill {l : List Bill} {st : State} {b : Bill} :
    b ∈ (l.foldl State.add_bill st).bills ↔ b ∈ st.bills ∨ b ∈ l := by
  induction l generalizing st with
  | nil => simp
  | cons hd tl ih =>
    simp only [List.foldl_cons, ih, add_bill_bills, Finset.mem_insert,
      List.mem_cons]
    tauto

/-- Folding `erase` over a list only removes bills. -/
theorem mem_foldl_erase {l : List Bill} {s0 : Finset Bill} {b : Bill}
    (h : b ∈ l.foldl (fun bs bill => bs.erase bill) s0) : b ∈ s0 := by
  induction l generalizing s0 with
  | nil => simpa using h
  | cons hd tl ih => exact Finset.mem_of_mem_erase (ih h)

/-- The serial counter after folding `add_bill` advances by the list length,
modulo `2 ^ 64`. -/
theorem foldl_add_bill_next_serial (l : List Bill) :
    ∀ (st : State), st.next_serial < U64_MOD →
      (l.foldl State.add_bill st).next_serial =
        (st.next_serial + l.length) % U64_MOD := by
  induction l with
  | nil =>
    intro st h
    simp [Nat.mod_eq_of_lt h]
  | cons hd tl ih =>
    intro st h
    rw [List.foldl_cons,
      ih (st.add_bill hd) (Nat.mod_lt _ U64_MOD_pos),
      add_bill_next_serial, Nat.mod_add_mod]
    congr 1
    simp [List.length_cons]
    ring

/-- The wrapping left fold computing a u64 sum equals the true sum modulo
`2 ^ 64`, for any in-range accumulator. -/
theorem foldl_wrap_sum {l : List Bill} :
    ∀ {a : Nat}, a < U64_MOD →
      l.foldl (fun acc bill => (acc + bill.amount) % U64_MOD) a =
        (a + true_total l) % U64_MOD := by
  induction l with
  | nil =>
    intro a h
    simp [true_total, Nat.mod_eq_of_lt h]
  | cons hd tl ih =>
    intro a h
    rw [List.foldl_cons, ih (Nat.mod_lt _ U64_MOD_pos), Nat.mod_add_mod]
    simp only [true_total, List.map_cons, List.sum_cons]
    congr 1
    ring

/-- The code's u64 total is the true total reduced modulo `2 ^ 64`. -/
theorem get_total_amount_eq (l : List Bill) :
    DigitalCashSystem.get_total_amount l = true_total l % U64_MOD := by
  rw [DigitalCashSystem.get_total_amount, foldl_wrap_sum U64_MOD_pos,
    Nat.zero_add]

/-- The serial counter produced by bulk construction is the list length
modulo `2 ^ 64`. -/
theorem from_iter_next_serial (l : List Bill) :
    (State.from_iter l).next_serial = l.length % U64_MOD := by
  rw [State.from_iter, foldl_add_bill_next_serial _ State.new U64_MOD_pos]
  simp [State.new]

namespace DigitalCashSystem

/-- When the serial-checking loop reports no error, every scanned bill has a
positive amount and a serial outside the spend serials, the existing serials
and the accumulator, and the scanned serials are pairwise distinct. -/
theorem has_incorrect_serial_go_eq_false {sp ex : Finset Nat} :
    ∀ (l : List Bill) (acc : Finset Nat),
      has_incorrect_serial_go sp ex l acc = false →
      (∀ b ∈ l, b.amount ≠ 0 ∧ b.serial ∉ sp ∧ b.serial ∉ ex ∧ b.serial ∉ acc) ∧
        (l.map Bill.serial).Nodup := by
  intro l
  induction l with
  | nil =>
    intro acc _
    exact ⟨by simp, by simp⟩
  | cons hd tl ih =>
    intro acc h
    by_cases hz : hd.amount = 0
    · simp [has_incorrect_serial_go, hz] at h
    · by_cases hcol : hd.serial ∈ sp ∨ hd.serial ∈ acc ∨ hd.serial ∈ ex
      · simp only [has_incorrect_serial_go, if_neg hz, if_pos hcol] at h
        cases h
      · rw [has_incorrect_serial_go, if_neg hz, if_neg hcol] at h
        obtain ⟨htl, hnd⟩ := ih (insert hd.serial acc) h
        push_neg at hcol
        obtain ⟨hsp, hacc, hex⟩ := hcol
        constructor
        · intro b hb
          rcases List.mem_cons.mp hb with rfl | hb
          · exact ⟨hz, hsp, hex, hacc⟩
          · obtain ⟨h1, h2, h3, h4⟩ := htl b hb
            exact ⟨h1, h2, h3, fun hmem => h4 (Finset.mem_insert_of_mem hmem)⟩
        · rw [List.map_cons, List.nodup_cons]
          refine ⟨?_, hnd⟩
          intro hmem
          obtain ⟨b, hb, hserial⟩ := List.mem_map.mp hmem
          obtain ⟨_, _, _, h4⟩ := htl b hb
          exact h4 (hserial ▸ Finset.mem_insert_self hd.serial acc)

/-- When `has_incorrect_serial` reports no error, every receive has a
positive amount and a serial fresh with respect to the spends and the
existing bills, and the receive serials are pairwise distinct. -/
theorem has_incorrect_serial_eq_false {sp ex : Finset Nat} {l : List Bill}
    (h : has_incorrect_serial l sp ex = false) :
    (∀ b ∈ l, b.amount ≠ 0 ∧ b.serial ∉ sp ∧ b.serial ∉ ex) ∧
      (l.map Bill.serial).Nodup := by
  obtain ⟨hall, hnd⟩ := has_incorrect_serial_go_eq_false l ∅ h
  exact ⟨fun b hb => ⟨(hall b hb).1, (hall b hb).2.1, (hall b hb).2.2.1⟩, hnd⟩

/-- A Transfer either returns the starting state, or every validation check
passed and the result is the success branch `apply_transfer`. -/
theorem next_state_transfer_cases (s : State) (spends receives : List Bill) :
    next_state s (.Transfer spends receives) = s ∨
    (is_empty_receive_fails receives = false ∧
     is_overflow_receives_fails (get_total_amount spends)
       (get_total_amount receives) = false ∧
     (∀ b ∈ spends, b ∈ s.bills) ∧
     has_incorrect_serial receives (get_serials_set_from_vec spends)
       (get_serials_set_from_hashset s.bills) = false ∧
     next_state s (.Transfer spends receives) =
       apply_transfer s spends receives) := by
  by_cases h1 : is_empty_receive_fails receives = true
  · left; simp [next_state, h1]
  · by_cases h2 : is_overflow_receives_fails (get_total_amount spends)
        (get_total_amount receives) = true
    · left; simp [next_state, h1, h2]
    · by_cases h3 : spends.all (fun bill => bill ∈ s.bills) = true
      · by_cases h4 : has_incorrect_serial receives
            (get_serials_set_from_vec spends)
            (get_serials_set_from_hashset s.bills) = true
        · left; simp [next_state, h1, h2, h3, h4]
        · right
          refine ⟨Bool.eq_false_iff.mpr h1, Bool.eq_false_iff.mpr h2, ?_,
            Bool.eq_false_iff.mpr h4, ?_⟩
          · intro b hb
            simpa using List.all_eq_true.mp h3 b hb
          · simp [next_state, apply_transfer, h1, h2, h3, h4]
      · left; simp [next_state, h1, h2, h3]

/-- Bills of the Transfer success branch come from the starting store or
from the receives list. -/
theorem mem_apply_transfer_bills {s : State} {spends receives : List Bill}
    {b : Bill}
    (h : b ∈ (DigitalCashSystem.apply_transfer s spends receives).bills) :
    b ∈ s.bills ∨ b ∈ receives := by
  rw [DigitalCashSystem.apply_transfer] at h
  rcases mem_bills_foldl_add_bill.mp h with h | h
  · exact Or.inl (mem_foldl_erase h)
  · exact Or.inr h

/- Claim theorems. -/

/-- C1: the claim says a Transfer whose spends list contains the same bill
twice is rejected and leaves the state unchanged.  The code contradicts its
own test `sm_5_spending_same_bill_fails`: membership is checked with
`contains`, which does not consume the bill, so spending `{Alice,40,0}`
twice is accepted, the state changes, and the circulating value doubles
from 40 to 80. -/
theorem C1_double_spend_accepted_bug :
    DigitalCashSystem.next_state (State.from_iter [⟨.Alice, 40, 0⟩])
        (.Transfer [⟨.Alice, 40, 0⟩, ⟨.Alice, 40, 0⟩]
          [⟨.Bob, 20, 1⟩, ⟨.Bob, 20, 2⟩, ⟨.Alice, 40, 3⟩]) ≠
      State.from_iter [⟨.Alice, 40, 0⟩] ∧
    (DigitalCashSystem.next_state (State.from_iter [⟨.Alice, 40, 0⟩])
        (.Transfer [⟨.Alice, 40, 0⟩, ⟨.Alice, 40, 0⟩]
          [⟨.Bob, 20, 1⟩, ⟨.Bob, 20, 2⟩, ⟨.Alice, 40, 3⟩])).total_value = 80 := by
  decide

/-- C2: the claim says a Transfer never increases the total circulating
value.  The code contradicts its own test `sm_5_overflow_receives_fails`:
the u64 receives total wraps modulo `2 ^ 64`, so receives summing (truly) to
`u64::MAX + 43` pass the conservation check against a spent total of 42 and
the circulating value increases. -/
theorem C2_transfer_value_increase_bug :
    (DigitalCashSystem.next_state (State.from_iter [⟨.Alice, 42, 0⟩])
        (.Transfer [⟨.Alice, 42, 0⟩]
          [⟨.Bob, U64_MOD - 1, 1⟩, ⟨.Bob, 43, 2⟩])).total_value >
      (State.from_iter [⟨.Alice, 42, 0⟩]).total_value := by
  decide

/-- C3: the claim says every transition preserves the invariant that each
bill's serial is strictly below `next_serial`.  The code contradicts its own
test `sm_5_receiving_bill_with_incorrect_serial_fails`: receive serials are
only checked for freshness, never against `next_serial`, so on the test's
own input the state `{Alice,20,0}` (counter 1) accepts receives with serials
`u64::MAX` and 4000, and the resulting state (counter 3) carries bills whose
serials are not below its counter. -/
theorem C3_stale_serial_accepted_bug :
    (State.from_iter [⟨.Alice, 20, 0⟩]).serials_below_next ∧
    ¬ (DigitalCashSystem.next_state (State.from_iter [⟨.Alice, 20, 0⟩])
        (.Transfer [⟨.Alice, 20, 0⟩]
          [⟨.Alice, 10, U64_MOD - 1⟩, ⟨.Bob, 10, 4000⟩])).serials_below_next := by
  decide

/-- C4: the claim says the Transfer of spec scenario 2 (spend `{Alice,42,0}`,
receive `{Alice, u64::MAX, 1}` and `{Alice, 42, 2}`) is rejected with the
state unchanged.  The code contradicts its own test
`sm_5_overflow_receives_fails` on exactly this input: the u64 receives total
wraps to 41 ≤ 42, every serial is fresh, so the transfer is accepted and the
state changes. -/
theorem C4_overflow_transfer_accepted_bug :
    DigitalCashSystem.next_state (State.from_iter [⟨.Alice, 42, 0⟩])
        (.Transfer [⟨.Alice, 42, 0⟩]
          [⟨.Alice, U64_MOD - 1, 1⟩, ⟨.Alice, 42, 2⟩]) ≠
      State.from_iter [⟨.Alice, 42, 0⟩] := by
  decide

/-- C5 counterexample: with only the serial-uniqueness hypothesis of the
claim, uniqueness is not preserved.  The state `{Alice,5,7}` with counter 7
(reachable via `from_iter` followed by `set_serial`) has unique serials, yet
minting 3 to Bob inserts `{Bob,3,7}` next to `{Alice,5,7}`. -/
theorem C5_serial_uniqueness_counterexample :
    ((State.from_iter [⟨.Alice, 5, 7⟩]).set_serial 7).serials_unique ∧
    ¬ (DigitalCashSystem.next_state
        ((State.from_iter [⟨.Alice, 5, 7⟩]).set_serial 7)
        (.Mint .Bob 3)).serials_unique := by
  decide

/-- C5 (amended): if additionally every bill's serial is strictly below
`next_serial` (spec invariant 2), then every transition preserves serial
uniqueness of the store. -/
theorem C5_serial_uniqueness_preserved_amended (s : State)
    (t : CashTransaction) (huniq : s.serials_unique)
    (hbelow : s.serials_below_next) :
    (DigitalCashSystem.next_state s t).serials_unique := by
  cases t with
  | Mint minter amount =>
    by_cases hz : amount = 0
    · simpa [DigitalCashSystem.next_state, hz] using huniq
    · rw [DigitalCashSystem.next_state]
      simp only [if_neg hz]
      intro b1 hb1 b2 hb2 hser
      rw [add_bill_bills, Finset.mem_insert] at hb1 hb2
      rcases hb1 with rfl | hb1 <;> rcases hb2 with rfl | hb2
      · rfl
      · have hlt := hbelow b2 hb2
        simp only at hser
        exact absurd hser (by omega)
      · have hlt := hbelow b1 hb1
        simp only at hser
        exact absurd hser (by omega)
      · exact huniq b1 hb1 b2 hb2 hser
  | Transfer spends receives =>
    rcases DigitalCashSystem.next_state_transfer_cases s spends receives with
      heq | ⟨hemp, hov, hsp, hser, heq⟩
    · rw [heq]; exact huniq
    · rw [heq]
      obtain ⟨hfresh, hnd⟩ :=
        DigitalCashSystem.has_incorrect_serial_eq_false hser
      intro b1 hb1 b2 hb2 hs
      rcases mem_apply_transfer_bills hb1 with h1 | h1 <;>
        rcases mem_apply_transfer_bills hb2 with h2 | h2
      · exact huniq b1 h1 b2 h2 hs
      · have hmem : b2.serial ∈
            DigitalCashSystem.get_serials_set_from_hashset s.bills := by
          rw [DigitalCashSystem.get_serials_set_from_hashset]
          exact hs ▸ Finset.mem_image_of_mem Bill.serial h1
        exact absurd hmem (hfresh b2 h2).2.2
      · have hmem : b1.serial ∈
            DigitalCashSystem.get_serials_set_from_hashset s.bills := by
          rw [DigitalCashSystem.get_serials_set_from_hashset]
          exact hs.symm ▸ Finset.mem_image_of_mem Bill.serial h2
        exact absurd hmem (hfresh b1 h1).2.2
      · exact List.inj_on_of_nodup_map hnd h1 h2 hs

/-- C5 witness: a concrete state satisfying both hypotheses, whose Mint
successor has unique serials. -/
theorem C5_serial_uniqueness_witness :
    (State.from_iter [⟨.Alice, 5, 0⟩]).serials_unique ∧
    (State.from_iter [⟨.Alice, 5, 0⟩]).serials_below_next ∧
    (DigitalCashSystem.next_state (State.from_iter [⟨.Alice, 5, 0⟩])
        (.Mint .Bob 3)).serials_unique :=
  ⟨by decide, by decide,
    C5_serial_uniqueness_preserved_amended _ _ (by decide) (by decide)⟩

/-- C6 counterexample: taking "receives total exceeding spends total" at its
true (unbounded) value, the claim fails.  Receives truly totalling
`u64::MAX + 43` against a spent total of 42 fail that validation check, yet
the transfer is accepted (the u64 total wraps to 42) and the state changes. -/
theorem C6_idempotent_rejection_counterexample :
    true_total [(⟨.Charlie, U64_MOD - 1, 1⟩ : Bill), ⟨.Charlie, 43, 2⟩] >
      true_total [(⟨.Alice, 42, 0⟩ : Bill)] ∧
    DigitalCashSystem.next_state (State.from_iter [⟨.Alice, 42, 0⟩])
        (.Transfer [⟨.Alice, 42, 0⟩]
          [⟨.Charlie, U64_MOD - 1, 1⟩, ⟨.Charlie, 43, 2⟩]) ≠
      State.from_iter [⟨.Alice, 42, 0⟩] := by
  decide

/-- C6 (amended): with the totals read as the code computes them (u64
arithmetic, wrapping modulo `2 ^ 64`), every transaction failing any
validation check leaves the state structurally unchanged: no partial
mutation is ever observable. -/
theorem C6_idempotent_rejection_amended (s : State) (t : CashTransaction)
    (h : fails_validation s t) :
    DigitalCashSystem.next_state s t = s := by
  cases t with
  | Mint minter amount =>
    have hz : amount = 0 := h
    simp [DigitalCashSystem.next_state, hz]
  | Transfer spends receives =>
    rcases DigitalCashSystem.next_state_transfer_cases s spends receives with
      heq | ⟨hemp, hov, hsp, hser, heq⟩
    · exact heq
    · exfalso
      obtain ⟨hfresh, hnd⟩ :=
        DigitalCashSystem.has_incorrect_serial_eq_false hser
      rcases h with h | h | h | h | h | h | h
      · rw [h] at hemp
        simp [DigitalCashSystem.is_empty_receive_fails] at hemp
      · rw [DigitalCashSystem.is_overflow_receives_fails] at hov
        simp only [decide_eq_false_iff_not, not_lt] at hov
        omega
      · obtain ⟨b, hb, hnb⟩ := h
        exact hnb (hsp b hb)
      · obtain ⟨r, hr, hz⟩ := h
        exact (hfresh r hr).1 hz
      · obtain ⟨r, hr, hm⟩ := h
        exact (hfresh r hr).2.1 hm
      · exact h hnd
      · obtain ⟨r, hr, hm⟩ := h
        exact (hfresh r hr).2.2 hm

/-- C6 witness: a zero-amount Mint fails validation and leaves a concrete
state unchanged. -/
theorem C6_idempotent_rejection_witness :
    fails_validation (State.from_iter [⟨.Alice, 20, 0⟩]) (.Mint .Bob 0) ∧
    DigitalCashSystem.next_state (State.from_iter [⟨.Alice, 20, 0⟩])
        (.Mint .Bob 0) =
      State.from_iter [⟨.Alice, 20, 0⟩] :=
  ⟨rfl, C6_idempotent_rejection_amended _ _ rfl⟩

/-- C7 counterexample: on a state whose counter is `u64::MAX` (reachable via
`set_serial`), a successful Mint wraps the counter to 0 instead of
incrementing it by one. -/
theorem C7_mint_counter_wrap_counterexample :
    (DigitalCashSystem.next_state (State.new.set_serial (U64_MOD - 1))
        (.Mint .Alice 5)).next_serial ≠
      (State.new.set_serial (U64_MOD - 1)).next_serial + 1 := by
  decide

/-- C7 (amended): a zero-amount Mint returns the state unchanged; otherwise
the bill `{minter, amount, next_serial}` is inserted into the store and the
counter becomes `next_serial + 1` modulo `2 ^ 64` (so exactly `+ 1` whenever
the counter is below `u64::MAX`). -/
theorem C7_mint_behavior_amended (s : State) (minter : User) (amount : Nat) :
    (amount = 0 → DigitalCashSystem.next_state s (.Mint minter amount) = s) ∧
    (amount ≠ 0 → DigitalCashSystem.next_state s (.Mint minter amount) =
      { bills := insert ⟨minter, amount, s.next_serial⟩ s.bills,
        next_serial := (s.next_serial + 1) % U64_MOD }) := by
  constructor
  · intro h
    simp [DigitalCashSystem.next_state, h]
  · intro h
    simp [DigitalCashSystem.next_state, h, State.add_bill,
      State.increment_serial]

/-- C7 witness: Mint 20 to Alice on the empty state yields exactly the bill
`{Alice, 20, 0}` and counter 1. -/
theorem C7_mint_behavior_witness :
    DigitalCashSystem.next_state State.new (.Mint .Alice 20) =
      { bills := {⟨.Alice, 20, 0⟩}, next_serial := 1 } := by
  have h := (C7_mint_behavior_amended State.new .Alice 20).2 (by norm_num)
  rw [h]
  decide

/-- C8: any Transfer in which some receive's serial equals a spent bill's
serial, another receive's serial, or a circulating serial is rejected with
the state unchanged. -/
theorem C8_serial_freshness_rejection (s : State)
    (spends receives : List Bill)
    (h : (∃ r ∈ receives,
            r.serial ∈ DigitalCashSystem.get_serials_set_from_vec spends ∨
            r.serial ∈
              DigitalCashSystem.get_serials_set_from_hashset s.bills) ∨
         ¬ (receives.map Bill.serial).Nodup) :
    DigitalCashSystem.next_state s (.Transfer spends receives) = s := by
  rcases DigitalCashSystem.next_state_transfer_cases s spends receives with
    heq | ⟨_, _, _, hser, heq⟩
  · exact heq
  · exfalso
    obtain ⟨hfresh, hnd⟩ :=
      DigitalCashSystem.has_incorrect_serial_eq_false hser
    rcases h with ⟨r, hr, hm | hm⟩ | h
    · exact (hfresh r hr).2.1 hm
    · exact (hfresh r hr).2.2 hm
    · exact h hnd

/-- C8 witness: reusing the spent serial 0 as the receive serial is rejected
on a concrete state (the repository test
`sm_5_serial_number_already_seen_fails`). -/
theorem C8_serial_freshness_witness :
    DigitalCashSystem.next_state (State.from_iter [⟨.Alice, 20, 0⟩])
        (.Transfer [⟨.Alice, 20, 0⟩] [⟨.Alice, 18, 0⟩]) =
      State.from_iter [⟨.Alice, 20, 0⟩] :=
  C8_serial_freshness_rejection _ _ _ (by decide)

/-- C9 counterexample: bulk construction advances the u64 counter modulo
`2 ^ 64`, so a sequence of `2 ^ 64` bills yields counter 0, not `2 ^ 64`. -/
theorem C9_from_iter_counter_wrap_counterexample :
    (State.from_iter
        (List.replicate U64_MOD ⟨User.Alice, 1, 0⟩)).next_serial ≠
      (List.replicate U64_MOD (⟨User.Alice, 1, 0⟩ : Bill)).length := by
  rw [from_iter_next_serial, List.length_replicate, Nat.mod_self]
  norm_num [U64_MOD]

/-- C9 (amended): bulk-constructing a state from any ordered sequence of n
bills yields `next_serial = n` modulo `2 ^ 64` (hence exactly n for every
sequence of fewer than `2 ^ 64` bills), regardless of the serial values the
supplied bills carry. -/
theorem C9_from_iter_counter_amended (l : List Bill) :
    (State.from_iter l).next_serial = l.length % U64_MOD :=
  from_iter_next_serial l

/-- C10: a Transfer whose spends list is empty is always rejected, provided
the true sum of the receive amounts is below `2 ^ 64`: either receives is
empty, or its positive total exceeds the zero spent total, or all receive
amounts are zero and the zero-amount check fires. -/
theorem C10_empty_spends_rejected (s : State) (receives : List Bill)
    (h : true_total receives < U64_MOD) :
    DigitalCashSystem.next_state s (.Transfer [] receives) = s := by
  rcases DigitalCashSystem.next_state_transfer_cases s [] receives with
    heq | ⟨hemp, hov, _, hser, _⟩
  · exact heq
  · exfalso
    obtain ⟨hfresh, _⟩ :=
      DigitalCashSystem.has_incorrect_serial_eq_false hser
    have hne : receives ≠ [] := by
      intro hnil
      rw [hnil] at hemp
      simp [DigitalCashSystem.is_empty_receive_fails] at hemp
    have hspent : DigitalCashSystem.get_total_amount [] = 0 := rfl
    have hrecv : DigitalCashSystem.get_total_amount receives =
        true_total receives := by
      rw [get_total_amount_eq, Nat.mod_eq_of_lt h]
    rw [DigitalCashSystem.is_overflow_receives_fails, hspent, hrecv] at hov
    simp only [decide_eq_false_iff_not, not_lt, Nat.le_zero] at hov
    obtain ⟨r, hr⟩ := List.exists_mem_of_ne_nil receives hne
    have hle : r.amount ≤ true_total receives :=
      List.single_le_sum (fun x _ => Nat.zero_le x) _
        (List.mem_map_of_mem Bill.amount hr)
    exact (hfresh r hr).1 (by omega)

/-- C10 witness: a concrete Transfer funded by nothing is rejected (the
repository test `sm_5_empty_spend_fails`). -/
theorem C10_empty_spends_witness :
    DigitalCashSystem.next_state (State.from_iter [⟨.Alice, 20, 0⟩])
        (.Transfer [] [⟨.Alice, 15, 1⟩]) =
      State.from_iter [⟨.Alice, 20, 0⟩] :=
  C10_empty_spends_rejected _ _ (by decide)
